import Mathlib

/-!
Verification development for the shared insight-memory subsystem of the
Patterson Park Patio Bar agents (`src/memory_manager.py`).

The `MemoryManager` class is shallowly embedded below.  Python dicts holding
the memory structure are modelled by the `Store` structure; the five fixed
category keys by the `Category` inductive; candidate insights returned by the
extraction service by the `Candidate` structure (optional string fields, per
the service interface: non-string field values are outside this model); log
calls by accumulated `LogEntry` lists; the ambient clock (`datetime.now()`)
and the pruning cutoff (`now - timedelta(days=max_age_days)`, ISO-formatted)
by explicit string parameters `now` and `cutoff`; the persisted snapshot file
by a `FileState` value holding either nothing (missing file), a JSON parse
failure, or the parsed JSON value.  String lowercasing/trimming uses Lean's
ASCII-scoped primitives, matching Python on the ASCII inputs used throughout.
Python's string `<` (code-point lexicographic) is embedded as `pyStrLt`.
-/

/-- The five closed category tags (`VALID_CATEGORIES` in the source). -/
inductive Category : Type where
  | owner_preferences
  | approved_decisions
  | rejected_ideas
  | operational_notes
  | event_history
deriving DecidableEq, Repr

/-- The category keys in declared order, as iterated by the source. -/
def VALID_CATEGORIES : List Category :=
  [Category.owner_preferences, Category.approved_decisions,
   Category.rejected_ideas, Category.operational_notes, Category.event_history]

/-- The category key strings, as the source's `VALID_CATEGORIES` list holds them. -/
def Category.name : Category → String
  | .owner_preferences => "owner_preferences"
  | .approved_decisions => "approved_decisions"
  | .rejected_ideas => "rejected_ideas"
  | .operational_notes => "operational_notes"
  | .event_history => "event_history"

/-- Parse a category key string back to the closed tag (dict indexing by key). -/
def catOfString (s : String) : Option Category :=
  if s = "owner_preferences" then some Category.owner_preferences
  else if s = "approved_decisions" then some Category.approved_decisions
  else if s = "rejected_ideas" then some Category.rejected_ideas
  else if s = "operational_notes" then some Category.operational_notes
  else if s = "event_history" then some Category.event_history
  else none

/-- One stored insight (`mem_entry` dict built in `extract_and_store`).
`created` is optional because the raw persisted dict may lack the key;
`prune_old_entries` reads it via `entry.get("created", "")`. -/
structure Entry where
  id : String
  content : String
  source_agent : String
  created : Option String
  confidence : String
deriving DecidableEq, Repr

/-- An archived entry: `dict(entry)` plus the two tags added by
`prune_old_entries`. -/
structure ArchEntry where
  entry : Entry
  original_category : Category
  archived_on : String
deriving DecidableEq, Repr

/-- The in-memory store (the `self.memory` dict). -/
structure Store where
  version : Nat
  last_updated : String
  cats : Category → List Entry
  archive : List ArchEntry

/-- One candidate insight from the extraction service: a JSON object with
optional `category`/`content`/`confidence` string fields, read via `.get`. -/
structure Candidate where
  category : Option String
  content : Option String
  confidence : Option String
deriving DecidableEq, Repr

/-- One `self.log(tag, msg, level)` call. -/
structure LogEntry where
  tag : String
  msg : String
  level : String
deriving DecidableEq, Repr

/-- Python's `<` on strings: code-point lexicographic comparison. -/
def pyStrLtChars : List Char → List Char → Bool
  | [], [] => false
  | [], _ :: _ => true
  | _ :: _, [] => false
  | a :: as, b :: bs =>
    if a < b then true else if b < a then false else pyStrLtChars as bs

/-- Python `a < b` for strings `a`, `b`. -/
def pyStrLt (a b : String) : Bool := pyStrLtChars a.data b.data

/-- Python's `text.lower()` (ASCII scope, matching Lean's `Char.toLower`). -/
def pyLower (s : String) : String := String.mk (s.data.map Char.toLower)

/-- Python's `text.strip()`: drop whitespace from both ends. -/
def pyStrip (s : String) : String :=
  String.mk (((s.data.dropWhile Char.isWhitespace).reverse.dropWhile Char.isWhitespace).reverse)

/-- Python's `text.rstrip(".")`: remove ALL trailing period characters. -/
def rstripPeriods (t : String) : String :=
  String.mk ((t.data.reverse.dropWhile (fun c => c == '.')).reverse)

/-- The normalization key used by `_deduplicate`:
`entry["content"].lower().strip().rstrip(".")`. -/
def normalizeKey (s : String) : String := rstripPeriods (pyStrip (pyLower s))

/-- Decimal digit character, as Python's integer formatting emits. -/
def digitChar (d : Nat) : Char := Char.ofNat (48 + d)

/-- Little-endian decimal digits of `n` (with fuel, so the kernel reduces it). -/
def decimalAux : Nat → Nat → List Char
  | 0, _ => []
  | _ + 1, 0 => []
  | fuel + 1, n + 1 => digitChar ((n + 1) % 10) :: decimalAux fuel ((n + 1) / 10)

/-- Python's `f"{n:03d}"`: decimal rendering of `n` left-padded with zeros to
width 3. -/
def pad3 (n : Nat) : List Char :=
  let ds := (decimalAux n n).reverse
  List.replicate (3 - ds.length) '0' ++ ds

/-- The per-category ID prefix (`prefix_map` in `_generate_id`; the `"mem"`
default is unreachable for the closed tag set). -/
def catPrefix : Category → String
  | .owner_preferences => "pref"
  | .approved_decisions => "dec"
  | .rejected_ideas => "rej"
  | .operational_notes => "ops"
  | .event_history => "evt"

/-- The ID string `f"{prefix}_{seq:03d}"` for category `c`, sequence `n`. -/
def idString (c : Category) (n : Nat) : String :=
  catPrefix c ++ "_" ++ String.mk (pad3 n)

/-- Count of archived entries whose `original_category` equals `c`. -/
def countArchived (st : Store) (c : Category) : Nat :=
  (st.archive.filter (fun e => decide (e.original_category = c))).length

/-- Active-plus-archived entry count for category `c` (the quantity
`existing + archived` in `_generate_id`). -/
def catCount (st : Store) (c : Category) : Nat :=
  (st.cats c).length + countArchived st c

/-- `MemoryManager._generate_id`. -/
def generate_id (st : Store) (c : Category) : String :=
  idString c (catCount st c + 1)

/-- `MemoryManager._empty_memory` (with `last_updated = now`). -/
def empty_memory (now : String) : Store :=
  { version := 1
    last_updated := now
    cats := fun _ => []
    archive := [] }

-- ---------------------------------------------------------------------
-- Decimal formatting facts (injectivity of the ID format)
-- ---------------------------------------------------------------------

/-- Inverse of `digitChar` on decimal digits. -/
def charDigit (c : Char) : Nat := c.toNat - 48

theorem charDigit_digitChar {d : Nat} (hd : d < 10) :
    charDigit (digitChar d) = d := by
  interval_cases d <;> decide

/-- Value of a little-endian decimal digit list. -/
def valLE : List Char → Nat
  | [] => 0
  | c :: cs => charDigit c + 10 * valLE cs

theorem valLE_decimalAux : ∀ fuel n, n ≤ fuel → valLE (decimalAux fuel n) = n := by
  intro fuel
  induction fuel with
  | zero => intro n hn; interval_cases n; rfl
  | succ fuel ih =>
    intro n hn
    match n with
    | 0 => rfl
    | m + 1 =>
      have hdiv : (m + 1) / 10 ≤ fuel := by
        have : (m + 1) / 10 < m + 1 := Nat.div_lt_self (Nat.succ_pos m) (by omega)
        omega
      simp only [decimalAux, valLE, ih _ hdiv,
        charDigit_digitChar (Nat.mod_lt _ (by omega))]
      exact Nat.mod_add_div (m + 1) 10

/-- Value of a big-endian decimal digit list. -/
def valBE (cs : List Char) : Nat := cs.foldl (fun a c => a * 10 + charDigit c) 0

theorem valBE_go (cs : List Char) :
    ∀ a, cs.foldl (fun a c => a * 10 + charDigit c) a =
      a * 10 ^ cs.length + valBE cs := by
  induction cs with
  | nil => intro a; simp [valBE]
  | cons c cs ih =>
    intro a
    simp only [List.foldl_cons, valBE] at *
    rw [ih (a * 10 + charDigit c), ih (0 * 10 + charDigit c)]
    simp only [List.length_cons, pow_succ]
    ring

theorem valBE_reverse (cs : List Char) : valBE cs.reverse = valLE cs := by
  induction cs with
  | nil => rfl
  | cons c cs ih =>
    have h1 : (c :: cs).reverse = cs.reverse ++ [c] := by simp
    rw [h1]
    simp only [valBE, List.foldl_append, List.foldl_cons, List.foldl_nil]
    rw [show ∀ l : List Char, l.foldl (fun a c => a * 10 + charDigit c) 0 = valBE l
        from fun _ => rfl] at *
    rw [valLE]
    omega

theorem valBE_replicate_zero_append (k : Nat) (cs : List Char) :
    valBE (List.replicate k '0' ++ cs) = valBE cs := by
  induction k with
  | zero => rfl
  | succ k ih =>
    simp only [List.replicate_succ, List.cons_append, valBE, List.foldl_cons] at *
    simpa [charDigit] using ih

theorem valBE_pad3 (n : Nat) : valBE (pad3 n) = n := by
  unfold pad3
  rw [valBE_replicate_zero_append, valBE_reverse]
  exact valLE_decimalAux n n (Nat.le_refl n)

theorem pad3_injective : Function.Injective pad3 := by
  intro m n h
  have := valBE_pad3 m
  rw [h, valBE_pad3] at this
  omega

theorem string_data_append (s t : String) : (s ++ t).data = s.data ++ t.data :=
  rfl

theorem idString_injective (c : Category) : Function.Injective (idString c) := by
  intro m n h
  apply pad3_injective
  have hd : (idString c m).data = (idString c n).data := by rw [h]
  simp only [idString, string_data_append] at hd
  exact List.append_cancel_left hd

-- ---------------------------------------------------------------------
-- Context rendering (`MemoryManager.get_memory_context`)
-- ---------------------------------------------------------------------

/-- `MAX_ENTRIES_PER_CATEGORY_IN_PROMPT` from the source. -/
def MAX_ENTRIES_PER_CATEGORY_IN_PROMPT : Nat := 5

/-- The `section_map` dict of `get_memory_context`, in insertion order. -/
def section_map : List (Category × String) :=
  [(Category.owner_preferences, "PREFERENCES"),
   (Category.approved_decisions, "APPROVED"),
   (Category.rejected_ideas, "VETOED"),
   (Category.operational_notes, "OPS NOTES"),
   (Category.event_history, "PAST EVENTS")]

/-- `total_entries`: sum of active entry counts over the five categories. -/
def totalActive (st : Store) : Nat :=
  (VALID_CATEGORIES.map (fun c => (st.cats c).length)).sum

/-- `entries[-MAX_ENTRIES_PER_CATEGORY_IN_PROMPT:]`: the most recent window. -/
def recentEntries (st : Store) (c : Category) : List Entry :=
  (st.cats c).drop ((st.cats c).length - MAX_ENTRIES_PER_CATEGORY_IN_PROMPT)

/-- The lines one `(cat_key, label)` pair contributes to the context block. -/
def sectionLines (st : Store) (p : Category × String) : List String :=
  if (st.cats p.1).isEmpty then []
  else ("[" ++ p.2 ++ "]") :: (recentEntries st p.1).map (fun e => "- " ++ e.content)

/-- The `lines` list built by `get_memory_context` before joining. -/
def contextLines (st : Store) : List String :=
  "\n--- OWNER MEMORY (Key Insights from Past Interactions) ---"
    :: (section_map.map (sectionLines st)).flatten
    ++ ["--- END OWNER MEMORY ---\n"]

/-- Number of entry lines included in the context block. -/
def includedCount (st : Store) : Nat :=
  (section_map.map (fun p => (recentEntries st p.1).length)).sum

/-- `MemoryManager.get_memory_context`, returning the block and its log calls. -/
def get_memory_context (st : Store) : String × List LogEntry :=
  if totalActive st = 0 then
    ("", [⟨"MEMORY", "No memory entries to inject.", "info"⟩])
  else
    let context := String.intercalate "\n" (contextLines st)
    (context,
     [⟨"MEMORY",
       "Memory context built — " ++ toString context.length ++ " chars, "
         ++ toString (includedCount st) ++ "/" ++ toString (totalActive st)
         ++ " entries included", "info"⟩])

-- ---------------------------------------------------------------------
-- Pruning (`MemoryManager.prune_old_entries`)
-- ---------------------------------------------------------------------

/-- The per-category loop body: split `entries` into the kept list and the
archived records, preserving order.  `cutoff` stands for
`(datetime.now() - timedelta(days=max_age_days)).isoformat()` and `now` for
`datetime.now().isoformat()`; the age test is Python string `<` on
`entry.get("created", "")`. -/
def pruneLoop (cutoff now : String) (c : Category) : List Entry → List Entry × List ArchEntry
  | [] => ([], [])
  | e :: rest =>
    let r := pruneLoop cutoff now c rest
    if pyStrLt (e.created.getD "") cutoff then
      (r.1, ⟨e, c, now⟩ :: r.2)
    else
      (e :: r.1, r.2)

/-- The `for cat in VALID_CATEGORIES` loop of `prune_old_entries`, over an
arbitrary category list. -/
def pruneFold (cutoff now : String) (cs : List Category) (acc : Store × Nat) : Store × Nat :=
  cs.foldl
    (fun acc c =>
      let r := pruneLoop cutoff now c (acc.1.cats c)
      ({ acc.1 with
          cats := Function.update acc.1.cats c r.1
          archive := acc.1.archive ++ r.2 },
       acc.2 + r.2.length))
    acc

/-- `MemoryManager.prune_old_entries`: move active entries older than the
cutoff to the archive; returns the updated store and `pruned_count`. -/
def prune_old_entries (cutoff now : String) (st : Store) : Store × Nat :=
  pruneFold cutoff now VALID_CATEGORIES (st, 0)

-- ---------------------------------------------------------------------
-- Deduplication (`MemoryManager._deduplicate`)
-- ---------------------------------------------------------------------

/-- `existing_contents`: normalized contents of all active entries in every
category (the source collects them into a set; a list with membership is the
equivalent here). -/
def existingKeys (st : Store) : List String :=
  ((VALID_CATEGORIES.map (fun c => (st.cats c).map (fun e => normalizeKey e.content)))).flatten

/-- The filtering loop of `_deduplicate`, threading the seen-key set.
Validated candidates always carry `content`; `getD ""` renders the lookup. -/
def dedupGo (seen : List String) : List Candidate → List Candidate × List LogEntry
  | [] => ([], [])
  | c :: rest =>
    let key := normalizeKey (c.content.getD "")
    if key ∈ seen then
      let r := dedupGo seen rest
      (r.1, ⟨"MEMORY", "Dedup: skipping '" ++ (c.content.getD "").take 60 ++ "'", "info"⟩ :: r.2)
    else
      let r := dedupGo (key :: seen) rest
      (c :: r.1, r.2)

/-- `MemoryManager._deduplicate`. -/
def deduplicate (st : Store) (new_entries : List Candidate) : List Candidate × List LogEntry :=
  dedupGo (existingKeys st) new_entries

-- ---------------------------------------------------------------------
-- Validation and the extraction pipeline (`MemoryManager.extract_and_store`)
-- ---------------------------------------------------------------------

/-- The candidate filter of `extract_and_store`:
`entry.get("category") in VALID_CATEGORIES and entry.get("content")
and len(entry["content"]) > 3` (truthiness of a string is non-emptiness;
`len` is the raw, untrimmed length). -/
def validateEntry (c : Candidate) : Bool :=
  (match c.category with
   | some s => (VALID_CATEGORIES.map Category.name).contains s
   | none => false)
  && (match c.content with
      | some s => s != "" && decide (3 < s.length)
      | none => false)

/-- The `mem_entry` dict built for one surviving candidate. -/
def mkMemEntry (st : Store) (cat : Category) (agent now : String) (c : Candidate) : Entry :=
  { id := generate_id st cat
    content := c.content.getD ""
    source_agent := agent
    created := some now
    confidence := c.confidence.getD "medium" }

/-- Append one surviving candidate to its category (`none` is unreachable
after validation, since the tag set is closed). -/
def storeOne (agent now : String) (st : Store) (c : Candidate) : Store :=
  match catOfString (c.category.getD "") with
  | some cat =>
    { st with cats := Function.update st.cats cat (st.cats cat ++ [mkMemEntry st cat agent now c]) }
  | none => st

/-- The commit loop of `extract_and_store` (under the store lock). -/
def commitAll (agent now : String) (st : Store) (cs : List Candidate) : Store :=
  cs.foldl (storeOne agent now) st

/-- Outcome of the external extraction-service call as observed by
`_call_extraction_llm`: the call raised (`exc`), the response text failed
`json.loads` after code-fence stripping (`badJson`), it parsed to a JSON
value that is not a list (`nonList`, with the length the log reports), or it
parsed to a list of candidate objects (`ok`). -/
inductive LLMOutcome where
  | exc (e : String)
  | badJson (e raw : String)
  | nonList (n : Nat)
  | ok (cands : List Candidate)

/-- The log line opening every `_call_extraction_llm` run. -/
def callingLog : LogEntry :=
  ⟨"MEMORY", "Calling extraction LLM (gemini-pro-latest)...", "info"⟩

/-- `MemoryManager._call_extraction_llm`: every failure path is absorbed and
returns the empty candidate list. -/
def call_extraction_llm : LLMOutcome → List Candidate × List LogEntry
  | .exc e =>
    ([], [callingLog, ⟨"MEMORY", "Extraction LLM call failed: " ++ e, "err"⟩])
  | .badJson e raw =>
    ([], [callingLog,
      ⟨"MEMORY", "Extraction LLM returned invalid JSON: " ++ e, "warn"⟩,
      ⟨"MEMORY", "Raw response: " ++ raw.take 200, "warn"⟩])
  | .nonList n =>
    ([], [callingLog,
      ⟨"MEMORY", "Extraction returned " ++ toString n ++ " candidate entries.", "info"⟩])
  | .ok cands =>
    (cands, [callingLog,
      ⟨"MEMORY", "Extraction returned " ++ toString cands.length ++ " candidate entries.", "info"⟩])

/-- The in-memory effect of `MemoryManager.save_memory`: stamp
`last_updated = now` (the JSON written to disk is `storeToJsonValue` of the
stamped store, defined with the persistence layer below). -/
def stampStore (now : String) (st : Store) : Store := { st with last_updated := now }

/-- `MemoryManager.extract_and_store`.  Returns the resulting store, the
number of `save_memory` calls performed, and the accumulated log calls
(per-entry log payloads are abbreviated; levels and counts are faithful). -/
def extract_and_store (outcome : LLMOutcome) (source_agent now cutoff : String) (st : Store) :
    Store × Nat × List LogEntry :=
  let startLog : LogEntry :=
    ⟨"MEMORY", "Starting extraction for '" ++ source_agent ++ "' turn...", "info"⟩
  let ctx := get_memory_context st
  let llm := call_extraction_llm outcome
  let baseLogs := startLog :: ctx.2 ++ llm.2
  let new_entries := llm.1
  if new_entries.isEmpty then
    (st, 0, baseLogs ++ [⟨"MEMORY", "No new insights extracted.", "info"⟩])
  else
    let valid_entries := new_entries.filter validateEntry
    let skipLogs := (new_entries.filter (fun c => !validateEntry c)).map
      (fun _ => (⟨"MEMORY", "Skipping invalid entry", "warn"⟩ : LogEntry))
    let dd := deduplicate st valid_entries
    let unique_entries := dd.1
    if unique_entries.isEmpty then
      (st, 0, baseLogs ++ skipLogs ++ dd.2
        ++ [⟨"MEMORY", "All extracted entries were duplicates.", "info"⟩])
    else
      let st1 := commitAll source_agent now st unique_entries
      let storedLogs := unique_entries.map (fun c =>
        (⟨"MEMORY", "Stored: " ++ (c.content.getD "").take 80, "ok"⟩ : LogEntry))
      let st2 := stampStore now st1
      let saveLog1 : LogEntry :=
        ⟨"MEMORY", "Memory saved — " ++ toString (totalActive st2) ++ " active entries.", "ok"⟩
      let pr := prune_old_entries cutoff now st2
      if 0 < pr.2 then
        let st3 := stampStore now pr.1
        let saveLog2 : LogEntry :=
          ⟨"MEMORY", "Memory saved — " ++ toString (totalActive st3) ++ " active entries.", "ok"⟩
        (st3, 2, baseLogs ++ skipLogs ++ dd.2 ++ storedLogs ++ [saveLog1, saveLog2])
      else
        (pr.1, 1, baseLogs ++ skipLogs ++ dd.2 ++ storedLogs ++ [saveLog1])

-- ---------------------------------------------------------------------
-- Operation traces (for the ID-uniqueness invariant)
-- ---------------------------------------------------------------------

/-- One mutation of the store: an extraction turn or an explicit prune. -/
inductive MemOp where
  | extractOp (outcome : LLMOutcome) (agent now cutoff : String)
  | pruneOp (cutoff now : String)

/-- Apply one operation to the store. -/
def applyOp (st : Store) : MemOp → Store
  | .extractOp o a n c => (extract_and_store o a n c st).1
  | .pruneOp c n => (prune_old_entries c n st).1

/-- Run a finite sequence of operations. -/
def runOps (ops : List MemOp) (st : Store) : Store := ops.foldl applyOp st

-- ---------------------------------------------------------------------
-- Persistence (`load_memory` / `save_memory`) over a JSON value model
-- ---------------------------------------------------------------------

/-- JSON values, as produced by `json.load` (numbers restricted to naturals,
which covers every number the subsystem writes). -/
inductive Json where
  | null
  | bool (b : Bool)
  | num (n : Nat)
  | str (s : String)
  | arr (elems : List Json)
  | obj (fields : List (String × Json))

/-- Python exceptions that can escape `load_memory`'s `try` block (only
`json.JSONDecodeError` and `KeyError` are caught by the source). -/
inductive PyErr where
  | attributeError
  | typeError
deriving DecidableEq, Repr

/-- First-match field lookup in a JSON object (parsed dicts have unique keys). -/
def lookupField : List (String × Json) → String → Option Json
  | [], _ => none
  | (k, v) :: rest, key => if k = key then some v else lookupField rest key

/-- Python `v.get(key, dflt)`: only objects (dicts) have `.get`; anything else
raises `AttributeError`. -/
def pyGetDefault (v : Json) (key : String) (dflt : Json) : Except PyErr Json :=
  match v with
  | .obj fields => .ok ((lookupField fields key).getD dflt)
  | _ => .error .attributeError

/-- Python `len(v)`: defined for strings, lists and dicts; anything else
raises `TypeError`. -/
def pyLen : Json → Except PyErr Nat
  | .str s => .ok s.length
  | .arr l => .ok l.length
  | .obj l => .ok l.length
  | _ => .error .typeError

/-- The accounting line of `load_memory`:
`sum(len(data.get("categories", {}).get(c, [])) for c in VALID_CATEGORIES)`. -/
def countActiveJson (data : Json) : Except PyErr Nat :=
  VALID_CATEGORIES.foldlM
    (fun acc c => do
      let catsv ← pyGetDefault data "categories" (Json.obj [])
      let l ← pyGetDefault catsv c.name (Json.arr [])
      let n ← pyLen l
      pure (acc + n))
    0

/-- The field list of the `mem_entry` dict, in insertion order (`created`
present only when the entry carries it). -/
def entryFields (e : Entry) : List (String × Json) :=
  [("id", Json.str e.id), ("content", Json.str e.content),
   ("source_agent", Json.str e.source_agent)]
  ++ (match e.created with
      | some t => [("created", Json.str t)]
      | none => [])
  ++ [("confidence", Json.str e.confidence)]

/-- JSON form of an active entry. -/
def entryToJson (e : Entry) : Json := Json.obj (entryFields e)

/-- JSON form of an archived entry: `dict(entry)` plus the two archival tags
appended in assignment order. -/
def archEntryToJson (a : ArchEntry) : Json :=
  Json.obj (entryFields a.entry
    ++ [("original_category", Json.str a.original_category.name),
        ("archived_on", Json.str a.archived_on)])

/-- JSON form of the memory dict, keys in the insertion order
`_empty_memory` establishes. -/
def storeToJson (st : Store) : Json :=
  Json.obj
    [("version", Json.num st.version),
     ("last_updated", Json.str st.last_updated),
     ("categories",
       Json.obj (VALID_CATEGORIES.map
         (fun c => (c.name, Json.arr ((st.cats c).map entryToJson))))),
     ("archive", Json.arr (st.archive.map archEntryToJson))]

/-- State of the snapshot file: missing, present but failing `json.load`
(with the decode-error text), or present and parsing to a JSON value. -/
def FileState : Type := Option (Except String Json)

/-- `MemoryManager.load_memory`: returns the raw parsed JSON (Python returns
the dict unvalidated), or the fresh `_empty_memory` structure when the file
is missing or unparsable; shape errors escaping the accounting line
(`AttributeError`/`TypeError`) propagate, since only `json.JSONDecodeError`
and `KeyError` are caught. -/
def load_memory (file : FileState) (now : String) : Except PyErr Json × List LogEntry :=
  let loadingLog : LogEntry := ⟨"MEMORY", "Loading memory from file...", "info"⟩
  match file with
  | some (.ok data) =>
    (match countActiveJson data with
     | .ok total =>
       (.ok data,
        [loadingLog,
         ⟨"MEMORY", "Loaded " ++ toString total ++ " active memory entries.", "ok"⟩])
     | .error e => (.error e, [loadingLog]))
  | some (.error e) =>
    (.ok (storeToJson (empty_memory now)),
     [loadingLog,
      ⟨"MEMORY", "Error loading memory: " ++ e ++ " — creating fresh.", "warn"⟩,
      ⟨"MEMORY", "No memory file found — creating empty structure.", "info"⟩])
  | none =>
    (.ok (storeToJson (empty_memory now)),
     [loadingLog,
      ⟨"MEMORY", "No memory file found — creating empty structure.", "info"⟩])

/-- `MemoryManager.save_memory`: stamp `last_updated = now`, then write the
stamped store as JSON; returns the new in-memory store, the written JSON and
the log call. -/
def save_memory (now : String) (st : Store) : Store × Json × List LogEntry :=
  let stamped := stampStore now st
  (stamped, storeToJson stamped,
   [⟨"MEMORY", "Memory saved — " ++ toString (totalActive stamped) ++ " active entries.", "ok"⟩])

/-- Parse one entry object back (inverse of `entryToJson` on its image). -/
def entryOfJson : Json → Option Entry
  | .obj fields =>
    match lookupField fields "id", lookupField fields "content",
          lookupField fields "source_agent", lookupField fields "confidence" with
    | some (.str i), some (.str ct), some (.str sa), some (.str cf) =>
      match lookupField fields "created" with
      | some (.str t) => some ⟨i, ct, sa, some t, cf⟩
      | none => some ⟨i, ct, sa, none, cf⟩
      | some _ => none
    | _, _, _, _ => none
  | _ => none

/-- Parse one archived-entry object back. -/
def archEntryOfJson (j : Json) : Option ArchEntry :=
  match j with
  | .obj fields => do
    let e ← entryOfJson j
    match lookupField fields "original_category", lookupField fields "archived_on" with
    | some (.str oc), some (.str ao) => do
      let c ← catOfString oc
      pure ⟨e, c, ao⟩
    | _, _ => none
  | _ => none

/-- Parse a JSON array of entries. -/
def parseEntries : List Json → Option (List Entry)
  | [] => some []
  | j :: rest => do
    let e ← entryOfJson j
    let es ← parseEntries rest
    pure (e :: es)

/-- Parse a JSON array of archived entries. -/
def parseArchEntries : List Json → Option (List ArchEntry)
  | [] => some []
  | j :: rest => do
    let a ← archEntryOfJson j
    let as ← parseArchEntries rest
    pure (a :: as)

/-- Entry list under one category key of the categories object. -/
def parseCatEntries (cf : List (String × Json)) (c : Category) : Option (List Entry) :=
  match lookupField cf c.name with
  | some (.arr l) => parseEntries l
  | _ => none

/-- Read a `Store` back out of its JSON form (inverse of `storeToJson` on its
image; used to state what a persisted snapshot denotes). -/
def jsonToStore (j : Json) : Option Store :=
  match j with
  | .obj fields =>
    match lookupField fields "version", lookupField fields "last_updated",
          lookupField fields "categories", lookupField fields "archive" with
    | some (.num v), some (.str lu), some (.obj cf), some (.arr ar) => do
      let l1 ← parseCatEntries cf Category.owner_preferences
      let l2 ← parseCatEntries cf Category.approved_decisions
      let l3 ← parseCatEntries cf Category.rejected_ideas
      let l4 ← parseCatEntries cf Category.operational_notes
      let l5 ← parseCatEntries cf Category.event_history
      let arch ← parseArchEntries ar
      pure
        { version := v
          last_updated := lu
          cats := fun c =>
            match c with
            | .owner_preferences => l1
            | .approved_decisions => l2
            | .rejected_ideas => l3
            | .operational_notes => l4
            | .event_history => l5
          archive := arch }
    | _, _, _, _ => none
  | _ => none

-- ---------------------------------------------------------------------
-- General helper lemmas
-- ---------------------------------------------------------------------

theorem mem_VALID_CATEGORIES (c : Category) : c ∈ VALID_CATEGORIES := by
  cases c <;> simp [VALID_CATEGORIES]

theorem nodup_VALID_CATEGORIES : VALID_CATEGORIES.Nodup := by decide

theorem head?_dropWhile_not {α : Type} {p : α → Bool} :
    ∀ {l : List α} {a : α}, (l.dropWhile p).head? = some a → p a = false := by
  intro l
  induction l with
  | nil => intro a h; simp [List.dropWhile] at h
  | cons x xs ih =>
    intro a h
    by_cases hx : p x
    · rw [List.dropWhile_cons_of_pos hx] at h
      exact ih h
    · rw [List.dropWhile_cons_of_neg hx] at h
      simp only [List.head?_cons, Option.some.injEq] at h
      rw [← h]
      exact Bool.eq_false_iff.mpr hx

theorem string_ne_empty_iff_data {s : String} : s ≠ "" ↔ s.data ≠ [] := by
  constructor
  · intro h hd
    exact h (String.ext hd)
  · intro h hs
    exact h (by rw [hs])

-- ---------------------------------------------------------------------
-- Normalization: `rstrip(".")` removes all trailing periods
-- ---------------------------------------------------------------------

theorem rstripPeriods_spec (t : String) :
    ∃ k, t.data = (rstripPeriods t).data ++ List.replicate k '.' ∧
      (rstripPeriods t).data.getLast? ≠ some '.' := by
  set p : Char → Bool := fun c => c == '.' with hp
  set r : List Char := t.data.reverse with hr
  have hsplit : r.takeWhile p ++ r.dropWhile p = r := List.takeWhile_append_dropWhile p r
  have htake : r.takeWhile p = List.replicate (r.takeWhile p).length '.' := by
    apply List.eq_replicate_of_mem
    intro b hb
    have := List.mem_takeWhile_imp hb
    simpa [hp] using this
  have htake' : (r.takeWhile p).reverse = List.replicate (r.takeWhile p).length '.' := by
    rw [htake]
    simp [List.reverse_replicate, List.length_replicate]
  refine ⟨(r.takeWhile p).length, ?_, ?_⟩
  · have h1 : t.data = r.reverse := by rw [hr, List.reverse_reverse]
    have h2 : r.reverse = (r.dropWhile p).reverse ++ (r.takeWhile p).reverse := by
      conv_lhs => rw [← hsplit]
      rw [List.reverse_append]
    rw [h1, h2, htake']
    rfl
  · intro hlast
    have hhead : (r.dropWhile p).head? = some '.' := by
      rw [← List.getLast?_reverse]
      exact hlast
    have := head?_dropWhile_not hhead
    simp [hp] at this

/-- C4 (counterexample): the claim says the key for `"Likes craft beer.."`
keeps all but one trailing period (`"likes craft beer."`); the code's
`rstrip(".")` removes both, yielding `"likes craft beer"`. -/
theorem C4_normalize_counterexample :
    normalizeKey "Likes craft beer.." = "likes craft beer" ∧
    normalizeKey "Likes craft beer.." ≠ "likes craft beer." := by
  constructor <;> decide

/-- C4 (amended): for every input string, the dedup key is the string
lowercased, whitespace-trimmed, and with ALL trailing periods stripped:
the trimmed-lowered text is the key followed by some run of periods, and
the key itself never ends in a period. -/
theorem C4_normalize_key_spec (s : String) :
    ∃ k, (pyStrip (pyLower s)).data = (normalizeKey s).data ++ List.replicate k '.' ∧
      (normalizeKey s).data.getLast? ≠ some '.' := by
  simpa [normalizeKey] using rstripPeriods_spec (pyStrip (pyLower s))

-- ---------------------------------------------------------------------
-- Pruning characterization (C5, C10)
-- ---------------------------------------------------------------------

/-- The age test of `prune_old_entries`: `entry.get("created", "") < cutoff`. -/
def isOld (cutoff : String) (e : Entry) : Bool := pyStrLt (e.created.getD "") cutoff

/-- The archival record built for a pruned entry. -/
def tagArch (c : Category) (now : String) (e : Entry) : ArchEntry := ⟨e, c, now⟩

/-- The records one category contributes to the archive in a prune pass. -/
def movedOf (cutoff now : String) (st : Store) (c : Category) : List ArchEntry :=
  ((st.cats c).filter (isOld cutoff)).map (tagArch c now)

theorem pruneLoop_fst (cutoff now : String) (c : Category) :
    ∀ l : List Entry, (pruneLoop cutoff now c l).1 = l.filter (fun e => !isOld cutoff e) := by
  intro l
  induction l with
  | nil => rfl
  | cons e rest ih =>
    cases he : pyStrLt (e.created.getD "") cutoff with
    | true => simp [pruneLoop, he, List.filter_cons, isOld, ih]
    | false => simp [pruneLoop, he, List.filter_cons, isOld, ih]

theorem pruneLoop_snd (cutoff now : String) (c : Category) :
    ∀ l : List Entry,
      (pruneLoop cutoff now c l).2 = (l.filter (isOld cutoff)).map (tagArch c now) := by
  intro l
  induction l with
  | nil => rfl
  | cons e rest ih =>
    cases he : pyStrLt (e.created.getD "") cutoff with
    | true => simp [pruneLoop, he, List.filter_cons, isOld, ih, tagArch]
    | false => simp [pruneLoop, he, List.filter_cons, isOld, ih]

theorem pruneFold_spec (cutoff now : String) :
    ∀ (cs : List Category), cs.Nodup → ∀ (st : Store) (n : Nat),
      (pruneFold cutoff now cs (st, n)).1.version = st.version ∧
      (pruneFold cutoff now cs (st, n)).1.last_updated = st.last_updated ∧
      (pruneFold cutoff now cs (st, n)).1.archive
        = st.archive ++ (cs.map (movedOf cutoff now st)).flatten ∧
      (∀ c ∈ cs, (pruneFold cutoff now cs (st, n)).1.cats c
        = (st.cats c).filter (fun e => !isOld cutoff e)) ∧
      (∀ c, c ∉ cs → (pruneFold cutoff now cs (st, n)).1.cats c = st.cats c) ∧
      (pruneFold cutoff now cs (st, n)).2
        = n + (cs.map (fun c => ((st.cats c).filter (isOld cutoff)).length)).sum := by
  intro cs
  induction cs with
  | nil =>
    intro _ st n
    exact ⟨rfl, rfl, by simp [pruneFold], by simp, fun c _ => rfl, by simp [pruneFold]⟩
  | cons c0 rest ih =>
    intro hnd st n
    have hc0 : c0 ∉ rest := (List.nodup_cons.mp hnd).1
    have hndr : rest.Nodup := (List.nodup_cons.mp hnd).2
    -- one step of the fold
    have hstep : pruneFold cutoff now (c0 :: rest) (st, n)
        = pruneFold cutoff now rest
          ({ st with
              cats := Function.update st.cats c0
                ((st.cats c0).filter (fun e => !isOld cutoff e))
              archive := st.archive ++ movedOf cutoff now st c0 },
           n + ((st.cats c0).filter (isOld cutoff)).length) := by
      simp only [pruneFold, List.foldl_cons, pruneLoop_fst, pruneLoop_snd, movedOf,
        List.length_map]
    set st1 : Store :=
      { st with
          cats := Function.update st.cats c0
            ((st.cats c0).filter (fun e => !isOld cutoff e))
          archive := st.archive ++ movedOf cutoff now st c0 } with hst1
    have hcats1 : ∀ c, c ≠ c0 → st1.cats c = st.cats c := by
      intro c hc
      simp [hst1, Function.update_noteq hc]
    obtain ⟨hv, hl, ha, hin, hout, hcount⟩ :=
      ih hndr st1 (n + ((st.cats c0).filter (isOld cutoff)).length)
    rw [hstep]
    refine ⟨hv, hl, ?_, ?_, ?_, ?_⟩
    · rw [ha]
      have harch1 : st1.archive = st.archive ++ movedOf cutoff now st c0 := rfl
      have hmv : ∀ c ∈ rest, movedOf cutoff now st1 c = movedOf cutoff now st c := by
        intro c hc
        have hne : c ≠ c0 := fun h => hc0 (h ▸ hc)
        simp only [movedOf, hst1]
        rw [Function.update_noteq hne]
      rw [harch1, List.map_congr_left hmv]
      simp
    · intro c hc
      rcases List.mem_cons.mp hc with rfl | hcr
      · rw [hout c hc0]
        simp [hst1, Function.update_same]
      · rw [hin c hcr, hcats1 c (fun h => hc0 (h ▸ hcr))]
    · intro c hc
      have hne : c ≠ c0 := fun h => hc (h ▸ List.mem_cons_self c0 rest)
      have hcr : c ∉ rest := fun h => hc (List.mem_cons_of_mem c0 h)
      rw [hout c hcr, hcats1 c hne]
    · rw [hcount]
      have : ∀ c ∈ rest,
          ((st1.cats c).filter (isOld cutoff)).length
            = ((st.cats c).filter (isOld cutoff)).length := by
        intro c hc
        rw [hcats1 c (fun h => hc0 (h ▸ hc))]
      rw [List.map_congr_left this]
      simp [Nat.add_assoc]

/-- C5: `prune_old_entries` moves to the archive exactly the active entries
whose `created` (missing read as `""`) is older than the cutoff — tagging
each with its source category and `archived_on = now` (`tagArch`) —
removes them from the active sequences while keeping the survivors in
order (`filter`), appends only to the existing archive, returns the number
of entries moved, and touches nothing else. -/
theorem C5_prune_old_entries_spec (cutoff now : String) (st : Store) :
    (prune_old_entries cutoff now st).1.version = st.version ∧
    (prune_old_entries cutoff now st).1.last_updated = st.last_updated ∧
    (∀ c, (prune_old_entries cutoff now st).1.cats c
      = (st.cats c).filter (fun e => !isOld cutoff e)) ∧
    (prune_old_entries cutoff now st).1.archive
      = st.archive ++ (VALID_CATEGORIES.map (movedOf cutoff now st)).flatten ∧
    (prune_old_entries cutoff now st).2
      = (VALID_CATEGORIES.map (fun c => ((st.cats c).filter (isOld cutoff)).length)).sum := by
  obtain ⟨hv, hl, ha, hin, _, hcount⟩ :=
    pruneFold_spec cutoff now VALID_CATEGORIES nodup_VALID_CATEGORIES st 0
  exact ⟨hv, hl, fun c => hin c (mem_VALID_CATEGORIES c), ha, by simpa using hcount⟩

/-- C5 witness: a concrete store with one stale and one fresh entry in
`owner_preferences`; pruning moves exactly the stale one. -/
theorem C5_prune_old_entries_spec_witness :
    (prune_old_entries "2025-04-15T00:00:00" "2025-10-12T00:00:00"
      { version := 1
        last_updated := "2025-10-01T00:00:00"
        cats := fun c =>
          match c with
          | Category.owner_preferences =>
            [⟨"pref_001", "Prefers craft beer", "party_planner",
              some "2025-03-25T00:00:00", "high"⟩,
             ⟨"pref_002", "Hates karaoke", "party_planner",
              some "2025-09-30T00:00:00", "medium"⟩]
          | _ => []
        archive := [] }).2 = 1 := by
  have h := C5_prune_old_entries_spec "2025-04-15T00:00:00" "2025-10-12T00:00:00"
    { version := 1
      last_updated := "2025-10-01T00:00:00"
      cats := fun c =>
        match c with
        | Category.owner_preferences =>
          [⟨"pref_001", "Prefers craft beer", "party_planner",
            some "2025-03-25T00:00:00", "high"⟩,
           ⟨"pref_002", "Hates karaoke", "party_planner",
            some "2025-09-30T00:00:00", "medium"⟩]
        | _ => []
      archive := [] }
  rw [h.2.2.2.2]
  decide

theorem pyStrLt_empty_left {s : String} (h : s ≠ "") : pyStrLt "" s = true := by
  have hd : s.data ≠ [] := string_ne_empty_iff_data.mp h
  unfold pyStrLt pyStrLtChars
  match hs : s.data with
  | [] => exact absurd hs hd
  | c :: cs => rfl

/-- C10: the prune test compares `created` as a string against the
ISO-formatted cutoff, a missing `created` is read as `""`, and `""` sorts
before every non-empty cutoff — so such an entry is always judged old,
leaves the active sequence, and lands in the archive on the next prune. -/
theorem C10_missing_created_always_pruned (cutoff now : String) (st : Store)
    (c : Category) (e : Entry) (he : e ∈ st.cats c) (hcr : e.created = none)
    (hcut : cutoff ≠ "") :
    isOld cutoff e = true ∧
    e ∉ (prune_old_entries cutoff now st).1.cats c ∧
    tagArch c now e ∈ (prune_old_entries cutoff now st).1.archive := by
  have hold : isOld cutoff e = true := by
    unfold isOld
    rw [hcr]
    exact pyStrLt_empty_left hcut
  obtain ⟨_, _, hcats, harch, _⟩ := C5_prune_old_entries_spec cutoff now st
  refine ⟨hold, ?_, ?_⟩
  · rw [hcats c]
    intro hmem
    have := (List.mem_filter.mp hmem).2
    rw [hold] at this
    simp at this
  · rw [harch]
    apply List.mem_append_right
    apply List.mem_flatten.mpr
    refine ⟨movedOf cutoff now st c, List.mem_map_of_mem _ (mem_VALID_CATEGORIES c), ?_⟩
    exact List.mem_map_of_mem _ (List.mem_filter.mpr ⟨he, hold⟩)

/-- C10 witness: an entry with no `created` field is archived by a prune with
cutoff `"2025-04-15T00:00:00"`. -/
theorem C10_missing_created_always_pruned_witness :
    isOld "2025-04-15T00:00:00"
      ⟨"ops_001", "Ice machine is flaky", "daily_briefing", none, "medium"⟩ = true ∧
    (⟨"ops_001", "Ice machine is flaky", "daily_briefing", none, "medium"⟩ : Entry)
      ∉ (prune_old_entries "2025-04-15T00:00:00" "2025-10-12T00:00:00"
          { version := 1
            last_updated := "2025-10-01T00:00:00"
            cats := fun c =>
              match c with
              | Category.operational_notes =>
                [⟨"ops_001", "Ice machine is flaky", "daily_briefing", none, "medium"⟩]
              | _ => []
            archive := [] }).1.cats Category.operational_notes ∧
    tagArch Category.operational_notes "2025-10-12T00:00:00"
      ⟨"ops_001", "Ice machine is flaky", "daily_briefing", none, "medium"⟩
      ∈ (prune_old_entries "2025-04-15T00:00:00" "2025-10-12T00:00:00"
          { version := 1
            last_updated := "2025-10-01T00:00:00"
            cats := fun c =>
              match c with
              | Category.operational_notes =>
                [⟨"ops_001", "Ice machine is flaky", "daily_briefing", none, "medium"⟩]
              | _ => []
            archive := [] }).1.archive :=
  C10_missing_created_always_pruned "2025-04-15T00:00:00" "2025-10-12T00:00:00"
    { version := 1
      last_updated := "2025-10-01T00:00:00"
      cats := fun c =>
        match c with
        | Category.operational_notes =>
          [⟨"ops_001", "Ice machine is flaky", "daily_briefing", none, "medium"⟩]
        | _ => []
      archive := [] }
    Category.operational_notes
    ⟨"ops_001", "Ice machine is flaky", "daily_briefing", none, "medium"⟩
    (by decide) (by decide) (by decide)

-- ---------------------------------------------------------------------
-- Candidate validation (C3)
-- ---------------------------------------------------------------------

/-- The validity test as the SPEC words it: category among the five closed
tags, content non-empty and longer than 3 characters AFTER TRIMMING. -/
def specValidCandidate (c : Candidate) : Bool :=
  (match c.category with
   | some s => (VALID_CATEGORIES.map Category.name).contains s
   | none => false)
  && (match c.content with
      | some s => (pyStrip s) != "" && decide (3 < (pyStrip s).length)
      | none => false)

/-- C3 (counterexample): the candidate with content `"a   "` (raw length 4,
trimmed length 1) is accepted by the code's filter although the claim says a
candidate is accepted only if its content is longer than 3 characters after
trimming. -/
theorem C3_validation_counterexample :
    validateEntry ⟨some "owner_preferences", some "a   ", none⟩ = true ∧
    specValidCandidate ⟨some "owner_preferences", some "a   ", none⟩ = false := by
  constructor <;> decide

/-- C3 (amended): a candidate is accepted iff its category is one of the five
closed tags and its content is a non-empty string whose RAW (untrimmed)
length exceeds 3; an accepted candidate with no confidence field is stored
with confidence "medium"; and a rejected candidate is dropped by the filter
without affecting its siblings in the batch. -/
theorem C3_validation_spec (c : Candidate) :
    (validateEntry c = true ↔
      ((∃ s, c.category = some s ∧ s ∈ VALID_CATEGORIES.map Category.name) ∧
       (∃ s, c.content = some s ∧ s ≠ "" ∧ 3 < s.length))) ∧
    (∀ st cat agent now, (mkMemEntry st cat agent now c).confidence
        = c.confidence.getD "medium") ∧
    (∀ pre post : List Candidate, validateEntry c = false →
      (pre ++ c :: post).filter validateEntry
        = pre.filter validateEntry ++ post.filter validateEntry) := by
  refine ⟨?_, fun _ _ _ _ => rfl, ?_⟩
  · obtain ⟨cat, ct, cf⟩ := c
    cases cat with
    | none => simp [validateEntry]
    | some s =>
      cases ct with
      | none => simp [validateEntry]
      | some t => simp [validateEntry, and_assoc]
  · intro pre post hc
    rw [List.filter_append, List.filter_cons, hc]
    simp

/-- C3 witness: applying the sibling-independence part at a concrete
rejected candidate between two batch mates. -/
theorem C3_validation_spec_witness :
    ([(⟨some "owner_preferences", some "Prefers craft beer", some "high"⟩ : Candidate)]
      ++ (⟨some "not_a_category", some "Some long content", none⟩ : Candidate)
      :: [(⟨some "event_history", some "Trivia night drew 40 guests", none⟩ : Candidate)]).filter validateEntry
    = [(⟨some "owner_preferences", some "Prefers craft beer", some "high"⟩ : Candidate)].filter validateEntry
      ++ [(⟨some "event_history", some "Trivia night drew 40 guests", none⟩ : Candidate)].filter validateEntry :=
  (C3_validation_spec ⟨some "not_a_category", some "Some long content", none⟩).2.2
    [⟨some "owner_preferences", some "Prefers craft beer", some "high"⟩]
    [⟨some "event_history", some "Trivia night drew 40 guests", none⟩]
    (by decide)

-- ---------------------------------------------------------------------
-- Extraction-failure absorption (C7)
-- ---------------------------------------------------------------------

/-- C7: whenever the external extraction call fails — it raises (`exc`), its
payload fails JSON parsing (`badJson`), or it parses to a non-list value
(`nonList`) — `extract_and_store` returns normally (it is a total function
of the outcome), leaves the store unchanged, performs zero saves, and the
event is logged (at level "err", "warn", and "info" respectively). -/
theorem C7_extraction_failure_absorbed (st : Store) (agent now cutoff e raw : String) (n : Nat) :
    ((extract_and_store (.exc e) agent now cutoff st).1 = st ∧
     (extract_and_store (.exc e) agent now cutoff st).2.1 = 0 ∧
     (⟨"MEMORY", "Extraction LLM call failed: " ++ e, "err"⟩ : LogEntry)
       ∈ (extract_and_store (.exc e) agent now cutoff st).2.2) ∧
    ((extract_and_store (.badJson e raw) agent now cutoff st).1 = st ∧
     (extract_and_store (.badJson e raw) agent now cutoff st).2.1 = 0 ∧
     (⟨"MEMORY", "Extraction LLM returned invalid JSON: " ++ e, "warn"⟩ : LogEntry)
       ∈ (extract_and_store (.badJson e raw) agent now cutoff st).2.2) ∧
    ((extract_and_store (.nonList n) agent now cutoff st).1 = st ∧
     (extract_and_store (.nonList n) agent now cutoff st).2.1 = 0 ∧
     (⟨"MEMORY", "Extraction returned " ++ toString n ++ " candidate entries.", "info"⟩ : LogEntry)
       ∈ (extract_and_store (.nonList n) agent now cutoff st).2.2) := by
  refine ⟨⟨rfl, rfl, ?_⟩, ⟨rfl, rfl, ?_⟩, ⟨rfl, rfl, ?_⟩⟩ <;>
    simp [extract_and_store, call_extraction_llm, callingLog]

-- ---------------------------------------------------------------------
-- Global dedup idempotence (C1)
-- ---------------------------------------------------------------------

theorem dedupGo_all_dup (seen : List String) :
    ∀ l : List Candidate,
      (∀ c ∈ l, normalizeKey (c.content.getD "") ∈ seen) →
      (dedupGo seen l).1 = [] := by
  intro l
  induction l with
  | nil => intro _; rfl
  | cons c rest ih =>
    intro h
    have hc : normalizeKey (c.content.getD "") ∈ seen := h c (List.mem_cons_self c rest)
    simp only [dedupGo, if_pos hc]
    exact ih (fun x hx => h x (List.mem_cons_of_mem c hx))

/-- C1: if every candidate in the extraction output normalizes to the
normalized content of some active entry (in any category), then
`extract_and_store` leaves the store unchanged — no entry is appended in
any category and no save is performed — and iterating the call any number
of times still leaves the store unchanged. -/
theorem C1_dedup_idempotent (st : Store) (cands : List Candidate)
    (agent now cutoff : String)
    (h : ∀ cand ∈ cands, normalizeKey (cand.content.getD "") ∈ existingKeys st) :
    (extract_and_store (.ok cands) agent now cutoff st).1 = st ∧
    (extract_and_store (.ok cands) agent now cutoff st).2.1 = 0 ∧
    ∀ k, (fun s => (extract_and_store (.ok cands) agent now cutoff s).1)^[k] st = st := by
  have hmain : (extract_and_store (.ok cands) agent now cutoff st).1 = st ∧
      (extract_and_store (.ok cands) agent now cutoff st).2.1 = 0 := by
    cases cands with
    | nil => exact ⟨rfl, rfl⟩
    | cons c0 rest =>
      have hvalid : ∀ cand ∈ (c0 :: rest).filter validateEntry,
          normalizeKey (cand.content.getD "") ∈ existingKeys st :=
        fun cand hc => h cand (List.mem_of_mem_filter hc)
      have hdd : (dedupGo (existingKeys st) ((c0 :: rest).filter validateEntry)).1 = [] :=
        dedupGo_all_dup _ _ hvalid
      constructor <;>
        simp [extract_and_store, call_extraction_llm, deduplicate, hdd]
  exact ⟨hmain.1, hmain.2, Function.iterate_fixed hmain.1⟩

/-- A store holding one active preference entry (for the C1 witness). -/
def exampleStoreC1 : Store :=
  { version := 1
    last_updated := "2025-10-01T00:00:00"
    cats := fun c =>
      match c with
      | Category.owner_preferences =>
        [⟨"pref_001", "Prefers craft beer over imports", "party_planner",
          some "2025-09-01T00:00:00", "high"⟩]
      | _ => []
    archive := [] }

/-- A one-candidate batch normalizing to the stored entry (different case,
extra whitespace and periods, and even a different category — dedup is
global). -/
def exampleCandsC1 : List Candidate :=
  [⟨some "event_history", some "  Prefers CRAFT beer over imports.. ", none⟩]

/-- C1 witness: the concrete duplicate batch leaves the concrete store
unchanged, performs no save, and repeated calls fix the store. -/
theorem C1_dedup_idempotent_witness :
    (∀ cand ∈ exampleCandsC1,
      normalizeKey (cand.content.getD "") ∈ existingKeys exampleStoreC1) ∧
    ((extract_and_store (.ok exampleCandsC1) "party_planner"
        "2025-10-12T00:00:00" "2025-04-15T00:00:00" exampleStoreC1).1 = exampleStoreC1 ∧
     (extract_and_store (.ok exampleCandsC1) "party_planner"
        "2025-10-12T00:00:00" "2025-04-15T00:00:00" exampleStoreC1).2.1 = 0 ∧
     ∀ k, (fun s => (extract_and_store (.ok exampleCandsC1) "party_planner"
        "2025-10-12T00:00:00" "2025-04-15T00:00:00" s).1)^[k] exampleStoreC1
          = exampleStoreC1) :=
  ⟨by decide,
   C1_dedup_idempotent exampleStoreC1 exampleCandsC1 "party_planner"
     "2025-10-12T00:00:00" "2025-04-15T00:00:00" (by decide)⟩

-- ---------------------------------------------------------------------
-- Context rendering facts (C6)
-- ---------------------------------------------------------------------

theorem intercalate_go_data (s : String) :
    ∀ (l : List String) (acc : String),
      ∃ t, (String.intercalate.go acc s l).data = acc.data ++ t := by
  intro l
  induction l with
  | nil => intro acc; exact ⟨[], by simp [String.intercalate.go]⟩
  | cons a as ih =>
    intro acc
    obtain ⟨t, ht⟩ := ih (acc ++ s ++ a)
    refine ⟨(s ++ a).data ++ t, ?_⟩
    rw [show String.intercalate.go acc s (a :: as)
          = String.intercalate.go (acc ++ s ++ a) s as from rfl, ht]
    simp [string_data_append, List.append_assoc]

theorem intercalate_data_head (sep a : String) (l : List String) :
    ∃ t, (String.intercalate sep (a :: l)).data = a.data ++ t := by
  simpa [String.intercalate] using intercalate_go_data sep l a

/-- C6: the rendered context is empty iff the store has zero active entries;
for each of the five categories in declared order with at least one active
entry, the line list contains — as a contiguous block — the fixed section
label followed by the lines of the most recent (at most 5) entries; the
window is `entries[-5:]`, i.e. the last `min(len, 5)` entries in stored
(chronological) order. -/
theorem C6_render_spec (st : Store) :
    ((get_memory_context st).1 = "" ↔ totalActive st = 0) ∧
    (∀ c label, (c, label) ∈ section_map → st.cats c ≠ [] →
      List.IsInfix
        (("[" ++ label ++ "]") :: (recentEntries st c).map (fun e => "- " ++ e.content))
        (contextLines st)) ∧
    (∀ c, (recentEntries st c).length
      = min (st.cats c).length MAX_ENTRIES_PER_CATEGORY_IN_PROMPT) ∧
    (∀ c, recentEntries st c
      = (st.cats c).drop ((st.cats c).length - MAX_ENTRIES_PER_CATEGORY_IN_PROMPT)) := by
  refine ⟨?_, ?_, ?_, fun c => rfl⟩
  · constructor
    · intro h
      by_contra htot
      have hctx : (get_memory_context st).1
          = String.intercalate "\n" (contextLines st) := by
        simp [get_memory_context, if_neg htot]
      obtain ⟨t, ht⟩ := intercalate_data_head "\n"
        "\n--- OWNER MEMORY (Key Insights from Past Interactions) ---"
        ((section_map.map (sectionLines st)).flatten ++ ["--- END OWNER MEMORY ---\n"])
      have hdata : (get_memory_context st).1.data = [] := by rw [h]
      rw [hctx] at hdata
      have : (String.intercalate "\n" (contextLines st)).data
          = ("\n--- OWNER MEMORY (Key Insights from Past Interactions) ---" : String).data
            ++ t := ht
      rw [this] at hdata
      have := List.append_eq_nil.mp hdata
      exact absurd this.1 (by decide)
    · intro h
      simp [get_memory_context, h]
  · intro c label hmem hne
    obtain ⟨as, bs, hsplit⟩ := List.append_of_mem hmem
    have hsec : sectionLines st (c, label)
        = ("[" ++ label ++ "]") :: (recentEntries st c).map (fun e => "- " ++ e.content) := by
      have : (st.cats c).isEmpty = false := by
        cases hcs : st.cats c with
        | nil => exact absurd hcs hne
        | cons x xs => rfl
      simp [sectionLines, this]
    refine ⟨"\n--- OWNER MEMORY (Key Insights from Past Interactions) ---"
        :: (as.map (sectionLines st)).flatten,
      (bs.map (sectionLines st)).flatten ++ ["--- END OWNER MEMORY ---\n"], ?_⟩
    rw [← hsec]
    simp [contextLines, hsplit, List.flatten_append, List.append_assoc]
  · intro c
    simp only [recentEntries, List.length_drop]
    omega

/-- A store holding seven chronological entries in `owner_preferences`
(for the C6 witness). -/
def exampleStoreC6 : Store :=
  { version := 1
    last_updated := "2025-10-01T00:00:00"
    cats := fun c =>
      match c with
      | Category.owner_preferences =>
        [⟨"pref_001", "one", "a", some "2025-01-01T00:00:00", "high"⟩,
         ⟨"pref_002", "two", "a", some "2025-01-02T00:00:00", "high"⟩,
         ⟨"pref_003", "three", "a", some "2025-01-03T00:00:00", "high"⟩,
         ⟨"pref_004", "four", "a", some "2025-01-04T00:00:00", "high"⟩,
         ⟨"pref_005", "five", "a", some "2025-01-05T00:00:00", "high"⟩,
         ⟨"pref_006", "six", "a", some "2025-01-06T00:00:00", "high"⟩,
         ⟨"pref_007", "seven", "a", some "2025-01-07T00:00:00", "high"⟩]
      | _ => []
    archive := [] }

/-- C6 witness: with seven entries in `owner_preferences`, the rendered
lines contain the `[PREFERENCES]` block followed by exactly the last five
entries, and the window length is five. -/
theorem C6_render_spec_witness :
    List.IsInfix
      (("[" ++ "PREFERENCES" ++ "]") ::
        (recentEntries exampleStoreC6 Category.owner_preferences).map
          (fun e => "- " ++ e.content))
      (contextLines exampleStoreC6) ∧
    (recentEntries exampleStoreC6 Category.owner_preferences).length = 5 ∧
    (recentEntries exampleStoreC6 Category.owner_preferences).map
        (fun e => "- " ++ e.content)
      = ["- three", "- four", "- five", "- six", "- seven"] :=
  ⟨(C6_render_spec exampleStoreC6).2.1 Category.owner_preferences "PREFERENCES"
      (by decide) (by decide),
   by decide, by decide⟩

-- ---------------------------------------------------------------------
-- Persistence round-trip machinery (C8, C9)
-- ---------------------------------------------------------------------

theorem entryOfJson_entryToJson (e : Entry) : entryOfJson (entryToJson e) = some e := by
  obtain ⟨i, ct, sa, cr, cf⟩ := e
  cases cr <;> rfl

theorem archEntryOfJson_archEntryToJson (a : ArchEntry) :
    archEntryOfJson (archEntryToJson a) = some a := by
  obtain ⟨⟨i, ct, sa, cr, cf⟩, oc, ao⟩ := a
  cases cr <;> cases oc <;> rfl

theorem parseEntries_map (l : List Entry) :
    parseEntries (l.map entryToJson) = some l := by
  induction l with
  | nil => rfl
  | cons e rest ih => simp [parseEntries, entryOfJson_entryToJson, ih]

theorem parseArchEntries_map (l : List ArchEntry) :
    parseArchEntries (l.map archEntryToJson) = some l := by
  induction l with
  | nil => rfl
  | cons a rest ih => simp [parseArchEntries, archEntryOfJson_archEntryToJson, ih]

theorem jsonToStore_storeToJson (s : Store) : jsonToStore (storeToJson s) = some s := by
  obtain ⟨v, lu, f, ar⟩ := s
  simp [jsonToStore, storeToJson, VALID_CATEGORIES, List.map, lookupField,
    parseCatEntries, Category.name, parseEntries_map, parseArchEntries_map]
  funext c
  cases c <;> rfl

theorem countActiveJson_storeToJson (st : Store) :
    ∃ t, countActiveJson (storeToJson st) = Except.ok t :=
  ⟨_, rfl⟩

theorem load_memory_wellformed (st : Store) (now : String) :
    (load_memory (some (Except.ok (storeToJson st))) now).1
      = Except.ok (storeToJson st) := by
  obtain ⟨t, ht⟩ := countActiveJson_storeToJson st
  simp [load_memory, ht]

/-- C8 (counterexample): the snapshot file holds valid JSON that is not an
object (`[1, 2, 3]`); the claim says load recovers with a fresh empty store,
but the accounting line calls `.get` on a list and the resulting
`AttributeError` is not among the caught exceptions, so `load_memory`
raises. -/
theorem C8_load_counterexample :
    (load_memory (some (Except.ok (Json.arr [Json.num 1, Json.num 2, Json.num 3])))
      "2025-10-12T00:00:00").1 = Except.error PyErr.attributeError := rfl

/-- C8 (amended): `load_memory` returns the fresh empty structure
(`version = 1`, all five categories empty, empty archive) when the file is
missing, and likewise — after logging a warning — when the file fails JSON
parsing; a well-formed snapshot is returned as parsed; but a file parsing to
a JSON value that is not an object raises `AttributeError` instead of
recovering. -/
theorem C8_load_spec (now e : String) (st : Store) (l : List Json) :
    ((load_memory none now).1 = Except.ok (storeToJson (empty_memory now)) ∧
     empty_memory now
      = { version := 1, last_updated := now, cats := fun _ => [], archive := [] }) ∧
    ((load_memory (some (Except.error e)) now).1
        = Except.ok (storeToJson (empty_memory now)) ∧
     (⟨"MEMORY", "Error loading memory: " ++ e ++ " — creating fresh.", "warn"⟩ : LogEntry)
        ∈ (load_memory (some (Except.error e)) now).2) ∧
    (load_memory (some (Except.ok (storeToJson st))) now).1
        = Except.ok (storeToJson st) ∧
    (load_memory (some (Except.ok (Json.arr l))) now).1
        = Except.error PyErr.attributeError := by
  refine ⟨⟨rfl, rfl⟩, ⟨rfl, ?_⟩, load_memory_wellformed st now, rfl⟩
  simp [load_memory]

/-- C8 witness: loading a concrete well-formed snapshot returns it as
parsed. -/
theorem C8_load_spec_witness :
    (load_memory (some (Except.ok (storeToJson exampleStoreC1)))
        "2025-10-12T00:00:00").1 = Except.ok (storeToJson exampleStoreC1) :=
  (C8_load_spec "2025-10-12T00:00:00" "boom" exampleStoreC1 []).2.2.1

/-- C9 (counterexample): `save_memory` stamps `last_updated = now` before
writing, so saving the store created at `2025-01-01` at time `2025-06-30`
and loading the written snapshot yields the stamped store, which differs
from the store as it was before the save. -/
theorem C9_roundtrip_counterexample :
    (load_memory
        (some (Except.ok ((save_memory "2025-06-30T12:00:00"
          (empty_memory "2025-01-01T00:00:00")).2.1))) "X").1
      = Except.ok ((save_memory "2025-06-30T12:00:00"
          (empty_memory "2025-01-01T00:00:00")).2.1) ∧
    jsonToStore ((save_memory "2025-06-30T12:00:00"
        (empty_memory "2025-01-01T00:00:00")).2.1)
      = some (stampStore "2025-06-30T12:00:00" (empty_memory "2025-01-01T00:00:00")) ∧
    stampStore "2025-06-30T12:00:00" (empty_memory "2025-01-01T00:00:00")
      ≠ empty_memory "2025-01-01T00:00:00" := by
  refine ⟨rfl, jsonToStore_storeToJson
    (stampStore "2025-06-30T12:00:00" (empty_memory "2025-01-01T00:00:00")), ?_⟩
  intro h
  have := congrArg Store.last_updated h
  exact absurd this (by decide)

/-- C9 (amended): for every store, saving at time `now` writes the snapshot
of the store with `last_updated` restamped to `now`; loading that snapshot
returns exactly the written JSON, which denotes precisely the stamped
store — i.e. the round trip recovers the store as it is immediately AFTER
the save, equal to the pre-save store in every field except `last_updated`. -/
theorem C9_roundtrip_spec (st : Store) (now nowLoad : String) :
    (load_memory (some (Except.ok ((save_memory now st).2.1))) nowLoad).1
      = Except.ok (storeToJson (stampStore now st)) ∧
    jsonToStore (storeToJson (stampStore now st)) = some (stampStore now st) ∧
    (save_memory now st).1 = stampStore now st ∧
    (stampStore now st).version = st.version ∧
    (stampStore now st).cats = st.cats ∧
    (stampStore now st).archive = st.archive ∧
    (stampStore now st).last_updated = now :=
  ⟨load_memory_wellformed (stampStore now st) nowLoad,
   jsonToStore_storeToJson _, rfl, rfl, rfl, rfl, rfl⟩

-- ---------------------------------------------------------------------
-- ID allocation invariant (C2)
-- ---------------------------------------------------------------------

/-- All IDs belonging to category `c`: active entries plus archived entries
whose `original_category` is `c`. -/
def catIds (st : Store) (c : Category) : List String :=
  (st.cats c).map Entry.id
    ++ (st.archive.filter (fun a => decide (a.original_category = c))).map
        (fun a => a.entry.id)

/-- The allocation invariant: the IDs of category `c` are, up to order,
exactly `idString c 1, …, idString c (catCount st c)`. -/
def IdInv (st : Store) (c : Category) : Prop :=
  (catIds st c).Perm ((List.range' 1 (catCount st c)).map (idString c))

theorem IdInv_empty (t0 : String) (c : Category) : IdInv (empty_memory t0) c := by
  simp [IdInv, catIds, catCount, countArchived, empty_memory]

theorem catIds_append_entry (st : Store) (cat : Category) (e : Entry) :
    catIds ({ st with cats := Function.update st.cats cat (st.cats cat ++ [e]) }) cat
      = ((st.cats cat).map Entry.id ++ [e.id])
        ++ (st.archive.filter (fun a => decide (a.original_category = cat))).map
            (fun a => a.entry.id) := by
  simp [catIds, Function.update_same]

theorem catIds_update_other (st : Store) (cat c : Category) (e : Entry) (hne : c ≠ cat) :
    catIds ({ st with cats := Function.update st.cats cat (st.cats cat ++ [e]) }) c
      = catIds st c := by
  simp [catIds, Function.update_noteq hne]

theorem catCount_append_entry (st : Store) (cat : Category) (e : Entry) :
    catCount ({ st with cats := Function.update st.cats cat (st.cats cat ++ [e]) }) cat
      = catCount st cat + 1 := by
  simp only [catCount, countArchived, Function.update_same, List.length_append,
    List.length_cons, List.length_nil]
  omega

theorem catCount_update_other (st : Store) (cat c : Category) (e : Entry) (hne : c ≠ cat) :
    catCount ({ st with cats := Function.update st.cats cat (st.cats cat ++ [e]) }) c
      = catCount st c := by
  simp [catCount, countArchived, Function.update_noteq hne]

theorem IdInv_storeOne (agent now : String) (st : Store) (cand : Candidate)
    (c : Category) (h : IdInv st c) : IdInv (storeOne agent now st cand) c := by
  unfold storeOne
  cases hcat : catOfString (cand.category.getD "") with
  | none => exact h
  | some cat =>
    by_cases hc : cat = c
    · subst hc
      unfold IdInv at h ⊢
      rw [catIds_append_entry, catCount_append_entry]
      have hx : (mkMemEntry st cat agent now cand).id
          = idString cat (catCount st cat + 1) := rfl
      rw [hx, List.range'_concat]
      have h11 : 1 + 1 * catCount st cat = catCount st cat + 1 := by omega
      rw [h11, List.map_append, List.map_cons, List.map_nil]
      refine List.Perm.trans ?_ (List.Perm.append_right _ h)
      unfold catIds
      rw [List.append_assoc, List.append_assoc]
      exact List.Perm.append_left _ List.perm_append_comm
    · have hne : c ≠ cat := fun hh => hc hh.symm
      unfold IdInv at h ⊢
      rw [catIds_update_other st cat c _ hne, catCount_update_other st cat c _ hne]
      exact h

theorem IdInv_commitAll (agent now : String) (cs : List Candidate) :
    ∀ (st : Store) (c : Category), IdInv st c → IdInv (commitAll agent now st cs) c := by
  induction cs with
  | nil => intro st c h; exact h
  | cons c0 rest ih =>
    intro st c h
    simp only [commitAll, List.foldl_cons]
    exact ih (storeOne agent now st c0) c (IdInv_storeOne agent now st c0 c h)

theorem filter_tagArch (now : String) (c c' : Category) (l : List Entry) :
    (l.map (tagArch c' now)).filter (fun a => decide (a.original_category = c))
      = if c' = c then l.map (tagArch c' now) else [] := by
  induction l with
  | nil => simp
  | cons e rest ih =>
    by_cases h : c' = c
    · subst h
      simp [List.filter_cons, tagArch, ih]
    · simp [List.filter_cons, tagArch, h, ih]

theorem filter_flatten_moved (cutoff now : String) (st : Store) (c : Category) :
    ∀ cs : List Category, cs.Nodup → c ∈ cs →
      ((cs.map (movedOf cutoff now st)).flatten.filter
          (fun a => decide (a.original_category = c)))
        = movedOf cutoff now st c := by
  intro cs
  induction cs with
  | nil => intro _ h; cases h
  | cons c0 rest ih =>
    intro hnd hmem
    have hn := List.nodup_cons.mp hnd
    simp only [List.map_cons, List.flatten_cons, List.filter_append]
    have hhead := filter_tagArch now c c0 ((st.cats c0).filter (isOld cutoff))
    rcases List.mem_cons.mp hmem with rfl | hr
    · have htail : ((rest.map (movedOf cutoff now st)).flatten.filter
          (fun a => decide (a.original_category = c))) = [] := by
        rw [List.filter_eq_nil_iff]
        intro a ha
        obtain ⟨l', hl', hal⟩ := List.mem_flatten.mp ha
        obtain ⟨c', hc', rfl⟩ := List.mem_map.mp hl'
        obtain ⟨e, _, rfl⟩ := List.mem_map.mp hal
        simp only [tagArch, decide_eq_true_eq]
        exact fun hh => hn.1 (hh ▸ hc')
      rw [htail]
      rw [List.append_nil]
      simpa [movedOf] using hhead
    · have hc0 : c0 ≠ c := fun h => hn.1 (h ▸ hr)
      have hhead0 : ((movedOf cutoff now st c0).filter
          (fun a => decide (a.original_category = c))) = [] := by
        simpa [movedOf, hc0] using hhead
      rw [hhead0, List.nil_append]
      exact ih hn.2 hr

theorem perm_append_swap_right {A1 M B T : List String}
    (hp : (A1 ++ M).Perm T) : (A1 ++ (B ++ M)).Perm (T ++ B) := by
  refine (List.Perm.append_left A1 List.perm_append_comm).trans ?_
  rw [← List.append_assoc]
  exact List.Perm.append_right B hp

theorem IdInv_prune (cutoff now : String) (st : Store) (c : Category)
    (h : IdInv st c) : IdInv (prune_old_entries cutoff now st).1 c := by
  obtain ⟨_, _, ha, hin, _, _⟩ :=
    pruneFold_spec cutoff now VALID_CATEGORIES nodup_VALID_CATEGORIES st 0
  have hcats : (prune_old_entries cutoff now st).1.cats c
      = (st.cats c).filter (fun e => !isOld cutoff e) :=
    hin c (mem_VALID_CATEGORIES c)
  have ha' : (prune_old_entries cutoff now st).1.archive
      = st.archive ++ (VALID_CATEGORIES.map (movedOf cutoff now st)).flatten := ha
  have hfl := filter_flatten_moved cutoff now st c VALID_CATEGORIES
    nodup_VALID_CATEGORIES (mem_VALID_CATEGORIES c)
  have hM : (movedOf cutoff now st c).map (fun a => a.entry.id)
      = ((st.cats c).filter (isOld cutoff)).map Entry.id := by
    simp only [movedOf, List.map_map]
    rfl
  have harchids : ((prune_old_entries cutoff now st).1.archive.filter
        (fun a => decide (a.original_category = c))).map (fun a => a.entry.id)
      = (st.archive.filter (fun a => decide (a.original_category = c))).map
          (fun a => a.entry.id)
        ++ ((st.cats c).filter (isOld cutoff)).map Entry.id := by
    rw [ha', List.filter_append, hfl, List.map_append, hM]
  have hcount : catCount (prune_old_entries cutoff now st).1 c = catCount st c := by
    have hlen := (List.filter_append_perm (isOld cutoff) (st.cats c)).length_eq
    simp only [List.length_append] at hlen
    unfold catCount countArchived
    rw [hcats, ha', List.filter_append, List.length_append, hfl]
    simp only [movedOf, List.length_map]
    omega
  unfold IdInv
  rw [hcount]
  refine List.Perm.trans ?_ h
  unfold catIds
  rw [hcats, harchids]
  refine perm_append_swap_right ?_
  rw [← List.map_append]
  exact (List.perm_append_comm.trans
    (List.filter_append_perm (isOld cutoff) (st.cats c))).map Entry.id

theorem extract_and_store_fst_cases (outcome : LLMOutcome) (agent now cutoff : String)
    (st : Store) :
    (extract_and_store outcome agent now cutoff st).1 = st ∨
    ∃ unique : List Candidate,
      (extract_and_store outcome agent now cutoff st).1
        = (prune_old_entries cutoff now
            (stampStore now (commitAll agent now st unique))).1 ∨
      (extract_and_store outcome agent now cutoff st).1
        = stampStore now (prune_old_entries cutoff now
            (stampStore now (commitAll agent now st unique))).1 := by
  unfold extract_and_store
  by_cases h1 : (call_extraction_llm outcome).1.isEmpty
  · left
    simp [h1]
  · by_cases h2 : (deduplicate st
        ((call_extraction_llm outcome).1.filter validateEntry)).1.isEmpty
    · left
      simp [h1, h2]
    · right
      refine ⟨(deduplicate st
        ((call_extraction_llm outcome).1.filter validateEntry)).1, ?_⟩
      by_cases h3 : 0 < (prune_old_entries cutoff now
          (stampStore now (commitAll agent now st
            (deduplicate st
              ((call_extraction_llm outcome).1.filter validateEntry)).1))).2
      · right
        simp [h1, h2, h3]
      · left
        simp [h1, h2, h3]

theorem IdInv_stamp (now : String) (st : Store) (c : Category)
    (h : IdInv st c) : IdInv (stampStore now st) c := h

theorem IdInv_extract (outcome : LLMOutcome) (agent now cutoff : String)
    (st : Store) (c : Category) (h : IdInv st c) :
    IdInv (extract_and_store outcome agent now cutoff st).1 c := by
  rcases extract_and_store_fst_cases outcome agent now cutoff st with
    heq | ⟨unique, heq | heq⟩
  · rw [heq]; exact h
  · rw [heq]
    exact IdInv_prune cutoff now _ c
      (IdInv_stamp now _ c (IdInv_commitAll agent now unique st c h))
  · rw [heq]
    exact IdInv_stamp now _ c
      (IdInv_prune cutoff now _ c
        (IdInv_stamp now _ c (IdInv_commitAll agent now unique st c h)))

theorem IdInv_applyOp (st : Store) (op : MemOp) (c : Category)
    (h : IdInv st c) : IdInv (applyOp st op) c := by
  cases op with
  | extractOp o a n cu => exact IdInv_extract o a n cu st c h
  | pruneOp cu n => exact IdInv_prune cu n st c h

theorem IdInv_runOps (ops : List MemOp) :
    ∀ (st : Store) (c : Category), IdInv st c → IdInv (runOps ops st) c := by
  induction ops with
  | nil => intro st c h; exact h
  | cons op rest ih =>
    intro st c h
    simp only [runOps, List.foldl_cons]
    exact ih (applyOp st op) c (IdInv_applyOp st op c h)

/-- C2: starting from the empty store, after any finite sequence of
extraction turns and prunes, the IDs of each category (active entries plus
archived entries with that `original_category`) are exactly
`<prefix>_<pad(1)> … <prefix>_<pad(n)>` for `n` the category's
active-plus-archived count — in particular pairwise distinct — and every
allocation is `<prefix>_<zero-padded (active + archived + 1)>`. -/
theorem C2_id_allocation_unique (t0 : String) (ops : List MemOp) (c : Category) :
    (catIds (runOps ops (empty_memory t0)) c).Perm
      ((List.range' 1 (catCount (runOps ops (empty_memory t0)) c)).map (idString c)) ∧
    (catIds (runOps ops (empty_memory t0)) c).Nodup ∧
    ∀ st : Store, generate_id st c = idString c (catCount st c + 1) := by
  have hinv : IdInv (runOps ops (empty_memory t0)) c :=
    IdInv_runOps ops (empty_memory t0) c (IdInv_empty t0 c)
  refine ⟨hinv, ?_, fun _ => rfl⟩
  have hrange : ((List.range' 1 (catCount (runOps ops (empty_memory t0)) c)).map
      (idString c)).Nodup :=
    (List.nodup_range' 1 _).map (idString_injective c)
  exact hinv.symm.nodup hrange
